import Mathlib

/-!
Verification development for the boyle repository.

Shallow embedding of the masking module (boyle/nifti/mask.py), the
configuration loader (boyle/utils/rcfile.py) and the command lookup
(boyle/commands.py).  Images are modelled as a shape together with the
row-major flattening of their voxel data; Python exceptions are modelled
by an explicit error type carried in `Except`.
-/

/-- Python exception kinds raised by the code under verification. -/
inductive PyExc where
  | fileNotFound
  | typeError
  | niftiFilesNotCompatible
  | valueError
  | ioError
  | indexError
  | nameError
  deriving DecidableEq

instance {ε α : Type} [DecidableEq ε] [DecidableEq α] : DecidableEq (Except ε α) :=
  fun a b =>
    match a, b with
    | Except.ok x, Except.ok y =>
      if h : x = y then isTrue (by rw [h]) else isFalse (by intro hc; cases hc; exact h rfl)
    | Except.error x, Except.error y =>
      if h : x = y then isTrue (by rw [h]) else isFalse (by intro hc; cases hc; exact h rfl)
    | Except.ok _, Except.error _ => isFalse (by intro hc; cases hc)
    | Except.error _, Except.ok _ => isFalse (by intro hc; cases hc)

/-- A nibabel image: shape metadata plus the row-major flattening of the
voxel array.  The affine and header are irrelevant to the claims and
omitted. -/
structure NiftiImage where
  shape : List Nat
  data  : List Int
  deriving DecidableEq

/-- The image produced by load_mask: same shape, boolean voxel data. -/
structure BoolImage where
  shape : List Nat
  data  : List Bool
  deriving DecidableEq

/-- An argument accepted by the image-reading functions: either a file
path (which may or may not exist on disk) or an in-memory object (which
may or may not expose the image interface).  The payload is the image
the reference denotes when it is readable. -/
inductive ImgRef where
  | path (pathExists : Bool) (img : NiftiImage)
  | obj  (imageLike : Bool) (img : NiftiImage)
  deriving DecidableEq

/-- Modelled from the spec: check_img from boyle.nifti.check (the module
is not under src/).  It opens a path or accepts an already-loaded
image-like object, raising a file-not-found error for a missing path and
TypeError for an object without the image interface. -/
def check_img : ImgRef → Except PyExc NiftiImage
  | ImgRef.path true img  => Except.ok img
  | ImgRef.path false _   => Except.error PyExc.fileNotFound
  | ImgRef.obj true img   => Except.ok img
  | ImgRef.obj false _    => Except.error PyExc.typeError

/-- Modelled from the spec: check_img_compatibility from
boyle.nifti.check (not under src/).  Compares the shapes of two images
(only the first three spatial dimensions when only_check_3d is set) and
raises the incompatibility error on mismatch. -/
def check_img_compatibility (a b : NiftiImage) (only_check_3d : Bool) : Except PyExc Unit :=
  let sa := if only_check_3d then a.shape.take 3 else a.shape
  let sb := if only_check_3d then b.shape.take 3 else b.shape
  if sa = sb then Except.ok () else Except.error PyExc.niftiFilesNotCompatible

/-- Modelled from the spec: are_compatible_imgs from boyle.nifti.check
(not under src/).  Boolean compatibility test between two image
references. -/
def are_compatible_imgs (a b : ImgRef) : Bool :=
  match check_img a, check_img b with
  | Except.ok x, Except.ok y => x.shape == y.shape
  | _, _ => false

/-- np.unique of the flattened voxel data: the sorted list of distinct
values. -/
def np_unique (data : List Int) : List Int :=
  List.insertionSort (fun a b => a ≤ b) data.dedup

/-- as_ndarray(..., dtype=bool): nonzero voxels become true. -/
def toBoolImage (img : NiftiImage) : BoolImage :=
  { shape := img.shape, data := img.data.map (fun v => v != 0) }

/-- load_mask (mask.py lines 26-69): validates the distinct raw values of
the image and returns the image with boolean data.  A single distinct
value is rejected only when it is zero and empty masks are not allowed;
two distinct values must include zero; any other cardinality is
rejected with ValueError. -/
def load_mask (image : ImgRef) (allow_empty : Bool) : Except PyExc BoolImage :=
  match check_img image with
  | Except.error e => Except.error e
  | Except.ok img =>
    let values := np_unique img.data
    if values.length = 1 then
      if values.getD 0 0 = 0 ∧ allow_empty = false then
        Except.error PyExc.valueError
      else
        Except.ok (toBoolImage img)
    else if values.length = 2 then
      if (0 : Int) ∈ values then Except.ok (toBoolImage img)
      else Except.error PyExc.valueError
    else
      Except.error PyExc.valueError

/-- np.where on a flattened boolean array, starting at index s: the
indices of the true entries, in increasing order. -/
def whereTrueAux : List Bool → Nat → List Nat
  | [], _ => []
  | b :: rest, s => if b then s :: whereTrueAux rest (s + 1) else whereTrueAux rest (s + 1)

/-- np.where on a flattened boolean array. -/
def whereTrue (mask : List Bool) : List Nat := whereTrueAux mask 0

/-- numpy boolean indexing vol[mask]: the values of vol at the true
positions of mask, in index order. -/
def boolIndex (vol : List Int) (mask : List Bool) : List Int :=
  (whereTrue mask).map (fun i => vol.getD i 0)

/-- numpy fancy indexing vol[indices]. -/
def maskedRow (vol : List Int) (indices : List Nat) : List Int :=
  indices.map (fun i => vol.getD i 0)

/-- np.count_nonzero on a boolean array. -/
def count_nonzero (mask : List Bool) : Nat := mask.countP (fun b => b)

/-- Scattering values back into a fresh zero-filled flat array of length
n at the given indices (the reconstruction step referenced by the
round-trip property of the spec). -/
def scatter (n : Nat) (pairs : List (Nat × Int)) : List Int :=
  pairs.foldl (fun acc p => acc.set p.1 p.2) (List.replicate n 0)

/-- apply_mask (mask.py lines 171-221).  First try-block: check both
references and their compatibility, any failure is replaced by
NiftiFilesNotCompatible.  Second try-block: read the volume, load and
validate the mask, index the volume; any failure is replaced by
ValueError. -/
def apply_mask (image mask_img : ImgRef) : Except PyExc (List Int × List Nat) :=
  match check_img image, check_img mask_img with
  | Except.ok img, Except.ok msk =>
    match check_img_compatibility img msk false with
    | Except.error _ => Except.error PyExc.niftiFilesNotCompatible
    | Except.ok _ =>
      match load_mask mask_img true with
      | Except.error _ => Except.error PyExc.valueError
      | Except.ok mask => Except.ok (boolIndex img.data mask.data, whereTrue mask.data)
  | _, _ => Except.error PyExc.niftiFilesNotCompatible

/-- Elementwise += of numpy arrays. -/
def addVec (a b : List Int) : List Int := List.zipWith (fun x y => x + y) a b

/-- The accumulation loop of union_mask (mask.py lines 158-162): check
each file, check compatibility with the first image, add its data. -/
def unionAcc (firstimg : NiftiImage) : List ImgRef → List Int → Except PyExc (List Int)
  | [], acc => Except.ok acc
  | volf :: rest, acc =>
    match check_img volf with
    | Except.error e => Except.error e
    | Except.ok roiimg =>
      match check_img_compatibility firstimg roiimg false with
      | Except.error e => Except.error e
      | Except.ok _ => unionAcc firstimg rest (addVec acc roiimg.data)

/-- union_mask (mask.py lines 130-168).  The first file is checked
outside the try-block (failures propagate unchanged); any failure of the
accumulation loop is replaced by ValueError; on success the summed
volume is binarised with > 0. -/
def union_mask (filelist : List ImgRef) : Except PyExc (List Bool) :=
  match filelist.head? with
  | none => Except.error PyExc.indexError
  | some f0 =>
    match check_img f0 with
    | Except.error e => Except.error e
    | Except.ok firstimg =>
      match unionAcc firstimg filelist (List.replicate firstimg.data.length 0) with
      | Except.error _ => Except.error PyExc.valueError
      | Except.ok mask => Except.ok (mask.map (fun v => decide (0 < v)))

/-- The per-file loop of niftilist_mask_to_array (mask.py lines 360-366):
check each file, test compatibility with the mask file, and fill the
row with the file's data at the mask indices.  Exceptions propagate
unchanged (the except-block logs and re-raises). -/
def fillRows (mask_file : ImgRef) (indices : List Nat) :
    List ImgRef → Except PyExc (List (List Int))
  | [] => Except.ok []
  | f :: rest =>
    match check_img f with
    | Except.error e => Except.error e
    | Except.ok img =>
      if are_compatible_imgs (ImgRef.obj true img) mask_file then
        match fillRows mask_file indices rest with
        | Except.error e => Except.error e
        | Except.ok rows => Except.ok (maskedRow img.data indices :: rows)
      else
        Except.error PyExc.niftiFilesNotCompatible

/-- niftilist_mask_to_array (mask.py lines 317-371): check the first
file (IndexError on an empty list), load and validate the mask, compute
the mask indices, then fill one row per file after a per-file
compatibility check.  Returns the matrix, the indices and the mask
shape. -/
def niftilist_mask_to_array (img_filelist : List ImgRef) (mask_file : ImgRef) :
    Except PyExc (List (List Int) × List Nat × List Nat) :=
  match img_filelist.head? with
  | none => Except.error PyExc.indexError
  | some f0 =>
    match check_img f0 with
    | Except.error e => Except.error e
    | Except.ok _ =>
      match load_mask mask_file true with
      | Except.error e => Except.error e
      | Except.ok mask =>
        let indices := whereTrue mask.data
        match fillRows mask_file indices img_filelist with
        | Except.error e => Except.error e
        | Except.ok outmat => Except.ok (outmat, indices, mask.shape)

/-- A Python value stored in a settings dictionary: either None or a
string.  Truthiness follows Python: None and the empty string are
falsy. -/
inductive PyVal where
  | none
  | str (s : String)
  deriving DecidableEq

/-- Python truthiness of a dictionary value. -/
def pyTruthy : PyVal → Bool
  | PyVal.none => false
  | PyVal.str s => s ≠ ""

/-- Python `a or b`: the first operand when truthy, otherwise the
second. -/
def pyOr (a b : PyVal) : PyVal := if pyTruthy a then a else b

/-- A Python dictionary, modelled as an association list with the keys
in insertion order. -/
abbrev Dict := List (String × PyVal)

/-- d.get(k): the stored value of the first entry with key k, or None
when the key is absent (Python's get conflates the two). -/
def pyGet (d : Dict) (k : String) : PyVal :=
  match d.find? (fun kv => kv.1 == k) with
  | some kv => kv.2
  | Option.none => PyVal.none

/-- The key list of a dictionary. -/
def dictKeys (d : Dict) : List String := d.map (fun kv => kv.1)

/-- merge (rcfile.py lines 22-30): one entry per key of the union of the
two key sets, valued dict_1.get(key) or dict_2.get(key); a truthy value
of dict_1 takes priority, a falsy one falls through to dict_2. -/
def merge (dict_1 dict_2 : Dict) : Dict :=
  ((dictKeys dict_2 ++ dictKeys dict_1).dedup).map
    (fun k => (k, pyOr (pyGet dict_1 k) (pyGet dict_2 k)))

/-- d[k] = v: overwrite the entry when the key is present, append it
otherwise. -/
def dictSet (d : Dict) (k : String) (v : PyVal) : Dict :=
  if (d.find? (fun kv => kv.1 == k)).isSome then
    d.map (fun kv => if kv.1 == k then (k, v) else kv)
  else
    d ++ [(k, v)]

/-- d.pop(k): remove the entry with key k. -/
def dictPop (d : Dict) (k : String) : Dict := d.filter (fun kv => kv.1 != k)

/-- k.lstrip of the dash character: drop every leading dash. -/
def stripDashes (s : String) : String := ⟨s.data.dropWhile (fun c => c == '-')⟩

/-- Whether a key begins with a dash. -/
def startsWithDash (s : String) : Bool :=
  match s.data with
  | [] => false
  | c :: _ => c == '-'

/-- One iteration of the dash-stripping loop of rcfile (rcfile.py lines
230-231): args[k.lstrip of dashes] = args.pop(k).  The value is read
first, then the old key removed, then the stripped key written.  (Every
key of the iterated snapshot is still present when its turn comes:
processed keys are removed but only dash-free keys are ever inserted, so
pyGet returning None for an absent key is unreachable here.) -/
def stripStep (d : Dict) (k : String) : Dict :=
  dictSet (dictPop d k) (stripDashes k) (pyGet d k)

/-- The dash-stripping loop of rcfile, iterating over a snapshot of the
key list (Python 2 keys() semantics, the evident intent of the code). -/
def stripArgs (args : Dict) : Dict := (dictKeys args).foldl stripStep args

/-- Non-overlapping left-to-right removal of every occurrence of pat
(Python str.replace with an empty replacement), driven by a fuel that
starts at the string length. -/
def removeOccFuel (pat : List Char) : Nat → List Char → List Char
  | 0, s => s
  | _ + 1, [] => []
  | fuel + 1, c :: rest =>
    if pat ≠ [] ∧ pat.isPrefixOf (c :: rest) then
      removeOccFuel pat fuel ((c :: rest).drop pat.length)
    else
      c :: removeOccFuel pat fuel rest

/-- Python k.replace(pat, ''): remove every occurrence of pat. -/
def str_replace_all (s pat : String) : String :=
  ⟨removeOccFuel pat.data s.data.length s.data⟩

/-- Python k.startswith(pre). -/
def startswith (s pre : String) : Bool := pre.data.isPrefixOf s.data

/-- Python str.upper(), character by character. -/
def strUpper (s : String) : String := ⟨s.data.map Char.toUpper⟩

/-- Python str.lower(), character by character. -/
def strLower (s : String) : String := ⟨s.data.map Char.toLower⟩

/-- get_environment (rcfile.py lines 33-37): keep the environment
variables whose names start with the upper-cased application name
followed by an underscore, key them by the name with every occurrence of
that pattern removed and the rest lower-cased, and keep the value
unchanged.  (The final dict() collapses duplicate keys, keeping the
last; the association list preserves them in order.) -/
def get_environment (appname : String) (environ : List (String × String)) :
    List (String × String) :=
  let pfx := strUpper appname ++ "_"
  (environ.filter (fun kv => startswith kv.1 pfx)).map
    (fun kv => (strLower (str_replace_all kv.1 pfx), kv.2))

/-- get_config (rcfile.py lines 62-79): the generic section items,
overridden by a host-specific section merged on top when one exists.  A
missing host section behaves as an empty one (merge with an empty dict
leaves the mapping unchanged). -/
def get_config (host_items cfg_items : Dict) : Dict := merge host_items cfg_items

/-- rcfile (rcfile.py lines 152-244), abstracted over the dictionaries
the three sources produce: strips dashes from the argument keys in
place when requested, merges arguments over config over environment,
and raises IOError when the merged result is empty.  Returns the final
state of the caller's args dictionary together with the result. -/
def rcfile (args host_items cfg_items environ : Dict) (strip_dashes : Bool) :
    Dict × Except PyExc Dict :=
  let argsFinal := if strip_dashes then stripArgs args else args
  let config := merge (merge argsFinal (get_config host_items cfg_items)) environ
  (argsFinal, if config.isEmpty then Except.error PyExc.ioError else Except.ok config)

/-- The names bound at module level in boyle/commands.py: its imports
(lines 14-19) and its own definitions.  sys is not among them. -/
def commands_module_globals : List String :=
  ["os", "shutil", "subprocess", "logging", "log",
   "which", "which_py3", "which_py2", "check_call", "condor_call", "condor_submit"]

/-- Python name resolution inside boyle/commands.py: a global name is
defined exactly when the module binds it (sys is also not a builtin). -/
def nameDefined (n : String) : Bool := commands_module_globals.contains n

/-- shutil.which, external to the repository; its value is irrelevant
because the call site is unreachable. -/
def shutil_which (program : String) : String := program

/-- which_py3 (commands.py lines 31-32). -/
def which_py3 (program : String) : String := shutil_which program

/-- which (commands.py lines 22-28): evaluates sys.version_info first,
which resolves the global name sys; when that name is undefined the
lookup raises NameError before anything else happens. -/
def which (program : String) : Except PyExc String :=
  if nameDefined "sys" then Except.ok (which_py3 program)
  else Except.error PyExc.nameError

/-- Observable events of the masking operations: voxel-data reads and
compatibility checks, in program order. -/
inductive Ev where
  | accessImg              -- voxel data of the main image read
  | accessMask             -- voxel data of the mask read
  | accessFile (i : Nat)   -- voxel data of the i-th listed file read
  | compatCheck (i : Nat)  -- compatibility check performed (i: file index, 0 for pairwise calls)
  deriving DecidableEq

/-- Whether an event reads voxel data. -/
def isAccessEv : Ev → Bool
  | Ev.accessImg => true
  | Ev.accessMask => true
  | Ev.accessFile _ => true
  | Ev.compatCheck _ => false

/-- Whether some voxel data is read strictly before the i-th
compatibility check in the trace. -/
def dataAccessBeforeCheck (tr : List Ev) (i : Nat) : Bool :=
  (tr.takeWhile (fun e => e != Ev.compatCheck i)).any isAccessEv

/-- apply_mask (mask.py lines 202-221) instrumented with its event
trace: the compatibility check runs first; only afterwards are the
volume read (img.get_data), the mask image read and validated
(load_mask) and the loaded mask read again (get_data). -/
def apply_mask_tr (img msk : NiftiImage) : List Ev × Except PyExc Unit :=
  if img.shape = msk.shape then
    match load_mask (ImgRef.obj true msk) true with
    | Except.error _ => ([Ev.compatCheck 0, Ev.accessImg, Ev.accessMask], Except.error PyExc.valueError)
    | Except.ok _ =>
      ([Ev.compatCheck 0, Ev.accessImg, Ev.accessMask, Ev.accessMask], Except.ok ())
  else
    ([Ev.compatCheck 0], Except.error PyExc.niftiFilesNotCompatible)

/-- apply_mask_4d (mask.py lines 224-285) instrumented with its event
trace: the compatibility check (first three dimensions only) runs
first; only afterwards are the volume read (get_data) and the mask
loaded and read (_apply_mask_to_4d_data via load_mask_data). -/
def apply_mask_4d_tr (img msk : NiftiImage) : List Ev × Except PyExc Unit :=
  if img.shape.take 3 = msk.shape.take 3 then
    match load_mask (ImgRef.obj true msk) true with
    | Except.error _ => ([Ev.compatCheck 0, Ev.accessImg, Ev.accessMask], Except.error PyExc.valueError)
    | Except.ok _ =>
      ([Ev.compatCheck 0, Ev.accessImg, Ev.accessMask, Ev.accessMask], Except.ok ())
  else
    ([Ev.compatCheck 0], Except.error PyExc.niftiFilesNotCompatible)

/-- The per-file loop of niftilist_mask_to_array instrumented with its
event trace: for the file at index i, the compatibility check runs and
only on success is the file's voxel data read. -/
def niftiLoopTr (maskShape : List Nat) : List NiftiImage → Nat → List Ev × Except PyExc Unit
  | [], _ => ([], Except.ok ())
  | v :: rest, i =>
    if v.shape = maskShape then
      let r := niftiLoopTr maskShape rest (i + 1)
      (Ev.compatCheck i :: Ev.accessFile i :: r.1, r.2)
    else
      ([Ev.compatCheck i], Except.error PyExc.niftiFilesNotCompatible)

/-- niftilist_mask_to_array (mask.py lines 317-371) instrumented with
its event trace: before any per-file compatibility check, the mask's
voxel data is read twice — by load_mask (np.unique of get_data) and by
get_img_data — and the indices are computed from it. -/
def niftilist_mask_to_array_tr (vols : List NiftiImage) (mask : NiftiImage) :
    List Ev × Except PyExc Unit :=
  match vols with
  | [] => ([], Except.error PyExc.indexError)
  | _ :: _ =>
    match load_mask (ImgRef.obj true mask) true with
    | Except.error _ => ([Ev.accessMask], Except.error PyExc.valueError)
    | Except.ok _ =>
      let r := niftiLoopTr mask.shape vols 0
      (Ev.accessMask :: Ev.accessMask :: r.1, r.2)

lemma zip_map_self (l : List Nat) (f : Nat → Int) :
    l.zip (l.map f) = l.map (fun a => (a, f a)) := by
  induction l with
  | nil => rfl
  | cons a t ih => simp [ih]

lemma length_whereTrueAux (l : List Bool) : ∀ s, (whereTrueAux l s).length = count_nonzero l := by
  induction l with
  | nil => intro s; rfl
  | cons b t ih =>
    intro s
    cases b with
    | false => simpa [whereTrueAux, count_nonzero, List.countP_cons] using ih (s + 1)
    | true =>
      have h := ih (s + 1)
      simp [whereTrueAux, count_nonzero, List.countP_cons] at h ⊢
      omega

lemma mem_whereTrueAux (l : List Bool) : ∀ (s j : Nat),
    j ∈ whereTrueAux l s ↔ ∃ t, l.get? t = some true ∧ j = s + t := by
  induction l with
  | nil =>
    intro s j
    simp [whereTrueAux]
  | cons b rest ih =>
    intro s j
    cases b with
    | true =>
      show j ∈ s :: whereTrueAux rest (s + 1) ↔ _
      rw [List.mem_cons, ih]
      constructor
      · rintro (rfl | ⟨t, ht, rfl⟩)
        · exact ⟨0, rfl, by omega⟩
        · exact ⟨t + 1, ht, by omega⟩
      · rintro ⟨t, ht, rfl⟩
        cases t with
        | zero => left; omega
        | succ t => right; exact ⟨t, ht, by omega⟩
    | false =>
      show j ∈ whereTrueAux rest (s + 1) ↔ _
      rw [ih]
      constructor
      · rintro ⟨t, ht, rfl⟩
        exact ⟨t + 1, ht, by omega⟩
      · rintro ⟨t, ht, rfl⟩
        cases t with
        | zero => simp at ht
        | succ t => exact ⟨t, ht, by omega⟩

lemma mem_whereTrue (l : List Bool) (j : Nat) :
    j ∈ whereTrue l ↔ l.get? j = some true := by
  unfold whereTrue
  rw [mem_whereTrueAux]
  constructor
  · rintro ⟨t, ht, rfl⟩
    simpa using ht
  · intro h
    exact ⟨j, h, by omega⟩

lemma foldl_set_length (pairs : List (Nat × Int)) : ∀ (acc : List Int),
    (pairs.foldl (fun a p => a.set p.1 p.2) acc).length = acc.length := by
  induction pairs with
  | nil => intro acc; rfl
  | cons p rest ih => intro acc; simp [ih, List.length_set]

lemma getD_set_self (l : List Int) (i : Nat) (v : Int) (h : i < l.length) :
    (l.set i v).getD i 0 = v := by
  simp [List.getD_eq_getElem?_getD, List.getElem?_set_self, h]

lemma getD_set_ne (l : List Int) (i j : Nat) (v : Int) (h : j ≠ i) :
    (l.set j v).getD i 0 = l.getD i 0 := by
  simp [List.getD_eq_getElem?_getD, List.getElem?_set_ne h]

lemma foldl_set_getD (f : Nat → Int) :
    ∀ (pairs : List (Nat × Int)) (acc : List Int) (i : Nat),
      (∀ p ∈ pairs, p.2 = f p.1) → i < acc.length →
      (acc.getD i 0 = f i ∨ (i, f i) ∈ pairs) →
      (pairs.foldl (fun a p => a.set p.1 p.2) acc).getD i 0 = f i := by
  intro pairs
  induction pairs with
  | nil =>
    intro acc i _ _ hd
    rcases hd with hd | hd
    · exact hd
    · simp at hd
  | cons p rest ih =>
    intro acc i hall hlen hd
    have hp : p.2 = f p.1 := hall p (List.mem_cons_self p rest)
    have hall' : ∀ q ∈ rest, q.2 = f q.1 := fun q hq => hall q (List.mem_cons_of_mem p hq)
    have hlen' : i < (acc.set p.1 p.2).length := by simpa [List.length_set] using hlen
    simp only [List.foldl_cons]
    apply ih (acc.set p.1 p.2) i hall' hlen'
    rcases hd with hd | hd
    · left
      by_cases hpi : p.1 = i
      · subst hpi
        rw [getD_set_self acc p.1 p.2 hlen, hp]
      · rw [getD_set_ne acc i p.1 p.2 hpi]
        exact hd
    · rcases List.mem_cons.mp hd with hd | hd
      · left
        obtain ⟨h1, h2⟩ := Prod.ext_iff.mp hd.symm
        rw [h1, getD_set_self acc i p.2 hlen, h2]
      · right
        exact hd

lemma load_mask_ok_eq (image : ImgRef) (img : NiftiImage) (ae : Bool) (m : BoolImage)
    (hc : check_img image = Except.ok img)
    (h : load_mask image ae = Except.ok m) : m = toBoolImage img := by
  simp only [load_mask, hc] at h
  split_ifs at h <;> first
    | (exact (Except.ok.injEq _ _).mp h.symm ▸ rfl)
    | cases h

lemma apply_mask_ok_eq (img maskimg : NiftiImage) (vals : List Int) (idxs : List Nat)
    (h : apply_mask (ImgRef.obj true img) (ImgRef.obj true maskimg) = Except.ok (vals, idxs)) :
    vals = boolIndex img.data (toBoolImage maskimg).data ∧
      idxs = whereTrue (toBoolImage maskimg).data := by
  have hci : check_img (ImgRef.obj true img) = Except.ok img := rfl
  have hcm : check_img (ImgRef.obj true maskimg) = Except.ok maskimg := rfl
  simp only [apply_mask, hci, hcm] at h
  rcases hcomp : check_img_compatibility img maskimg false with e | u
  · rw [hcomp] at h; cases h
  · rw [hcomp] at h
    rcases hlm : load_mask (ImgRef.obj true maskimg) true with e | m
    · rw [hlm] at h; cases h
    · rw [hlm] at h
      have hm : m = toBoolImage maskimg := load_mask_ok_eq _ _ _ _ hcm hlm
      subst hm
      have := (Except.ok.injEq _ _).mp h
      exact ⟨(Prod.ext_iff.mp this).1.symm, (Prod.ext_iff.mp this).2.symm⟩

/-- Claim C1: with allow_empty at its default (True), load_mask accepts an
image exactly when its set of distinct raw values has cardinality one, or
cardinality two with zero among them; every other cardinality, and every
two-value set lacking zero, raises the invalid-mask ValueError.  The two
worked examples of the spec are included. -/
theorem C1_load_mask_value_cardinality :
    (∀ (sh : List Nat) (data : List Int),
        (load_mask (ImgRef.obj true ⟨sh, data⟩) true).isOk = true ↔
          (np_unique data).length = 1 ∨
            ((np_unique data).length = 2 ∧ (0 : Int) ∈ np_unique data)) ∧
    (load_mask (ImgRef.obj true ⟨[2, 2], [0, 0, 0, 1]⟩) true).isOk = true ∧
    (load_mask (ImgRef.obj true ⟨[2, 2], [1, 2, 3, 4]⟩) true).isOk = false := by
  refine ⟨?_, by decide, by decide⟩
  intro sh data
  have hc : check_img (ImgRef.obj true ⟨sh, data⟩) = Except.ok ⟨sh, data⟩ := rfl
  simp only [load_mask, hc]
  split_ifs with h1 h2 h3 h4
  · exact absurd h2.2 (by simp)
  · simp [Except.isOk, Except.toBool, h1]
  · simp [Except.isOk, Except.toBool, h3, h4]
  · simp only [Except.isOk, Except.toBool]
    constructor
    · intro h; cases h
    · rintro (h | ⟨h, hm⟩)
      · exact absurd h h1
      · exact absurd hm h4
  · simp only [Except.isOk, Except.toBool]
    constructor
    · intro h; cases h
    · rintro (h | ⟨h, _⟩)
      · exact absurd h h1
      · exact absurd h h3

/-- Claim C2: for every volume and mask accepted by apply_mask, scattering
the returned values back into a fresh full-shape array at the returned
indices reproduces the original volume at every mask-true voxel. -/
theorem C2_apply_mask_roundtrip :
    ∀ (img maskimg : NiftiImage) (vals : List Int) (idxs : List Nat),
      apply_mask (ImgRef.obj true img) (ImgRef.obj true maskimg) = Except.ok (vals, idxs) →
      ∀ (i : Nat), maskimg.data.getD i 0 ≠ 0 →
        (scatter img.data.length (idxs.zip vals)).getD i 0 = img.data.getD i 0 := by
  intro img maskimg vals idxs h i hmask
  obtain ⟨hv, hi⟩ := apply_mask_ok_eq img maskimg vals idxs h
  set mD : List Bool := (toBoolImage maskimg).data with hmD
  have hidx : i ∈ whereTrue mD := by
    rw [mem_whereTrue]
    have hlt : i < maskimg.data.length := by
      by_contra hge
      push_neg at hge
      rw [List.getD_eq_default _ _ hge] at hmask
      exact hmask rfl
    have : mD.get? i = (maskimg.data.get? i).map (fun v => v != 0) := by
      simp [hmD, toBoolImage, List.getElem?_map]
    rw [this]
    rcases hx : maskimg.data.get? i with _ | x
    · rw [List.get?_eq_none] at hx; omega
    · have : maskimg.data.getD i 0 = x := by
        simp [List.getD_eq_getElem?_getD, ← List.get?_eq_getElem?, hx]
      rw [this] at hmask
      simp [hx]
      exact hmask
  subst hv hi
  simp only [boolIndex]
  rw [zip_map_self]
  unfold scatter
  by_cases hlt : i < img.data.length
  · apply foldl_set_getD (fun j => img.data.getD j 0)
    · intro p hp
      obtain ⟨a, _, rfl⟩ := List.mem_map.mp hp
      rfl
    · simpa using hlt
    · right
      exact List.mem_map.mpr ⟨i, hidx, rfl⟩
  · push_neg at hlt
    rw [List.getD_eq_default _ _ hlt]
    apply List.getD_eq_default
    rw [foldl_set_length, List.length_replicate]
    exact hlt

/-- Witness for C2 at a concrete volume and mask. -/
theorem C2_apply_mask_roundtrip_witness :
    (scatter 2 (([1] : List Nat).zip ([7] : List Int))).getD 1 0 =
      (⟨[2], [5, 7]⟩ : NiftiImage).data.getD 1 0 := by
  have h := C2_apply_mask_roundtrip ⟨[2], [5, 7]⟩ ⟨[2], [0, 1]⟩ [7] [1] (by decide) 1 (by decide)
  simpa using h

/-- Counterexample to claim C5: apply_mask does not propagate the
original exception type.  On an unreadable image the underlying call
raises the file-not-found error, but apply_mask raises
NiftiFilesNotCompatible instead. -/
theorem C5_counterexample_exception_replaced :
    check_img (ImgRef.path false ⟨[1], [0]⟩) = Except.error PyExc.fileNotFound ∧
    apply_mask (ImgRef.path false ⟨[1], [0]⟩) (ImgRef.obj true ⟨[1], [0]⟩) =
      Except.error PyExc.niftiFilesNotCompatible ∧
    PyExc.niftiFilesNotCompatible ≠ PyExc.fileNotFound := by
  exact ⟨rfl, rfl, by decide⟩

/-- Claim C5 as amended: the loader helpers re-raise the underlying
exception unchanged, but apply_mask replaces any failure of its
check stage with NiftiFilesNotCompatible, and union_mask replaces any
failure inside its accumulation loop with ValueError. -/
theorem C5_exception_wrapping :
    (∀ (image mask_img : ImgRef) (e : PyExc), check_img image = Except.error e →
        apply_mask image mask_img = Except.error PyExc.niftiFilesNotCompatible) ∧
    (∀ (a b : NiftiImage), a.shape ≠ b.shape →
        union_mask [ImgRef.obj true a, ImgRef.obj true b] = Except.error PyExc.valueError) ∧
    (∀ (image : ImgRef) (e : PyExc) (ae : Bool), check_img image = Except.error e →
        load_mask image ae = Except.error e) := by
  refine ⟨?_, ?_, ?_⟩
  · intro image mask_img e h
    simp only [apply_mask, h]
  · intro a b h
    simp [union_mask, List.head?, unionAcc, check_img, check_img_compatibility, h]
  · intro image e ae h
    simp only [load_mask, h]

/-- Witness for C5 at concrete inputs. -/
theorem C5_exception_wrapping_witness :
    apply_mask (ImgRef.path false ⟨[], []⟩) (ImgRef.obj true ⟨[], []⟩) =
      Except.error PyExc.niftiFilesNotCompatible ∧
    union_mask [ImgRef.obj true ⟨[1], [1]⟩, ImgRef.obj true ⟨[2], [1, 1]⟩] =
      Except.error PyExc.valueError ∧
    load_mask (ImgRef.obj false ⟨[], []⟩) true = Except.error PyExc.typeError := by
  refine ⟨C5_exception_wrapping.1 _ (ImgRef.obj true ⟨[], []⟩) PyExc.fileNotFound rfl,
    C5_exception_wrapping.2.1 ⟨[1], [1]⟩ ⟨[2], [1, 1]⟩ (by decide),
    C5_exception_wrapping.2.2 _ PyExc.typeError true rfl⟩

/-- Claim C9: calling which always raises NameError, because the
commands module reads sys.version_info without importing sys; it can
never return a path. -/
theorem C9_which_raises_nameerror :
    ∀ (program : String), which program = Except.error PyExc.nameError ∧
      ∀ (p : String), which program ≠ Except.ok p := by
  intro program
  have h : which program = Except.error PyExc.nameError := by
    simp [which, nameDefined, commands_module_globals]
  refine ⟨h, ?_⟩
  intro p hc
  rw [h] at hc
  cases hc

lemma niftiLoopTr_accessFile (ms : List Nat) :
    ∀ (vols : List NiftiImage) (j i : Nat),
      Ev.accessFile i ∈ (niftiLoopTr ms vols j).1 →
      j ≤ i ∧ ∃ v, vols.get? (i - j) = some v ∧ v.shape = ms := by
  intro vols
  induction vols with
  | nil =>
    intro j i h
    simp [niftiLoopTr] at h
  | cons v rest ih =>
    intro j i h
    by_cases hv : v.shape = ms
    · rw [niftiLoopTr, if_pos hv] at h
      rcases List.mem_cons.mp h with h | h
      · cases h
      · rcases List.mem_cons.mp h with h | h
        · have hij : i = j := by cases h; rfl
          subst hij
          exact ⟨Nat.le_refl i, v, by simp, hv⟩
        · obtain ⟨hle, w, hw, hws⟩ := ih (j + 1) i h
          refine ⟨by omega, w, ?_, hws⟩
          have : i - j = (i - (j + 1)) + 1 := by omega
          rw [this]
          simpa using hw
    · rw [niftiLoopTr, if_neg hv] at h
      rcases List.mem_cons.mp h with h | h
      · cases h
      · simp at h

/-- Counterexample to claim C6: in niftilist_mask_to_array the mask's
voxel data is read (mask loading and index computation) before the
per-file compatibility check, so on a shape-mismatched pair data of one
of the two images is accessed before the check raises. -/
theorem C6_counterexample_mask_read_before_check :
    (⟨[2], [0, 0]⟩ : NiftiImage).shape ≠ (⟨[3], [0, 0, 1]⟩ : NiftiImage).shape ∧
    niftilist_mask_to_array_tr [⟨[2], [0, 0]⟩] ⟨[3], [0, 0, 1]⟩ =
      ([Ev.accessMask, Ev.accessMask, Ev.compatCheck 0],
        Except.error PyExc.niftiFilesNotCompatible) ∧
    dataAccessBeforeCheck (niftilist_mask_to_array_tr [⟨[2], [0, 0]⟩] ⟨[3], [0, 0, 1]⟩).1 0 = true := by
  exact ⟨by decide, by decide, by decide⟩

/-- Claim C6 as amended: in apply_mask and apply_mask_4d a shape
mismatch makes the compatibility check raise before any voxel data is
accessed; in niftilist_mask_to_array the mask's voxel data is read
before the per-file check, but a listed file's own voxel data is read
only when that file passed its compatibility check. -/
theorem C6_compat_check_before_access :
    (∀ (img msk : NiftiImage), img.shape ≠ msk.shape →
        apply_mask_tr img msk =
          ([Ev.compatCheck 0], Except.error PyExc.niftiFilesNotCompatible)) ∧
    (∀ (img msk : NiftiImage), img.shape.take 3 ≠ msk.shape.take 3 →
        apply_mask_4d_tr img msk =
          ([Ev.compatCheck 0], Except.error PyExc.niftiFilesNotCompatible)) ∧
    (∀ (vols : List NiftiImage) (mask : NiftiImage) (i : Nat),
        Ev.accessFile i ∈ (niftilist_mask_to_array_tr vols mask).1 →
        ∃ v, vols.get? i = some v ∧ v.shape = mask.shape) := by
  refine ⟨?_, ?_, ?_⟩
  · intro img msk h
    rw [apply_mask_tr, if_neg h]
  · intro img msk h
    rw [apply_mask_4d_tr, if_neg h]
  · intro vols mask i h
    match vols, h with
    | v0 :: rest, h =>
      rw [niftilist_mask_to_array_tr] at h
      rcases hlm : load_mask (ImgRef.obj true mask) true with e | m
      · rw [hlm] at h
        simp at h
      · rw [hlm] at h
        rcases List.mem_cons.mp h with h | h
        · cases h
        · rcases List.mem_cons.mp h with h | h
          · cases h
          · obtain ⟨_, w, hw, hws⟩ := niftiLoopTr_accessFile mask.shape (v0 :: rest) 0 i h
            exact ⟨w, by simpa using hw, hws⟩

/-- Witness for C6 at concrete inputs. -/
theorem C6_compat_check_before_access_witness :
    apply_mask_tr ⟨[1], [0]⟩ ⟨[2], [0, 0]⟩ =
      ([Ev.compatCheck 0], Except.error PyExc.niftiFilesNotCompatible) ∧
    apply_mask_4d_tr ⟨[1], [0]⟩ ⟨[2], [0, 0]⟩ =
      ([Ev.compatCheck 0], Except.error PyExc.niftiFilesNotCompatible) ∧
    ∃ v, [(⟨[2], [0, 1]⟩ : NiftiImage)].get? 0 = some v ∧ v.shape = ([2] : List Nat) := by
  refine ⟨C6_compat_check_before_access.1 ⟨[1], [0]⟩ ⟨[2], [0, 0]⟩ (by decide),
    C6_compat_check_before_access.2.1 ⟨[1], [0]⟩ ⟨[2], [0, 0]⟩ (by decide),
    C6_compat_check_before_access.2.2 [⟨[2], [0, 1]⟩] ⟨[2], [0, 1]⟩ 0 (by decide)⟩

lemma fillRows_ok (mref : ImgRef) (mimg : NiftiImage) (idxs : List Nat)
    (hm : check_img mref = Except.ok mimg) :
    ∀ (vols : List NiftiImage) (rows : List (List Int)),
      fillRows mref idxs (vols.map (ImgRef.obj true)) = Except.ok rows →
      rows.length = vols.length ∧
      ∀ (i : Nat) (h : i < vols.length),
        rows.get? i = some (maskedRow (vols.get ⟨i, h⟩).data idxs) ∧
        (vols.get ⟨i, h⟩).shape = mimg.shape := by
  intro vols
  induction vols with
  | nil =>
    intro rows h
    simp only [List.map_nil, fillRows] at h
    cases h
    exact ⟨rfl, fun i hi => absurd hi (by simp)⟩
  | cons v rest ih =>
    intro rows h
    have hcv : check_img (ImgRef.obj true v) = Except.ok v := rfl
    simp only [List.map_cons, fillRows, hcv] at h
    rcases hcomp : are_compatible_imgs (ImgRef.obj true v) mref with _ | _
    · rw [hcomp] at h
      simp at h
    · rw [hcomp] at h
      simp only [if_true] at h
      rcases hrest : fillRows mref idxs (rest.map (ImgRef.obj true)) with e | rows'
      · rw [hrest] at h; cases h
      · rw [hrest] at h
        have hrows : rows = maskedRow v.data idxs :: rows' := by
          cases h; rfl
        subst hrows
        obtain ⟨hlen, hall⟩ := ih rows' hrest
        have hshape : v.shape = mimg.shape := by
          unfold are_compatible_imgs at hcomp
          rw [hcv, hm] at hcomp
          exact eq_of_beq hcomp
        refine ⟨by simp [hlen], ?_⟩
        intro i hi
        cases i with
        | zero => exact ⟨rfl, hshape⟩
        | succ n =>
          have hn : n < rest.length := by simpa using hi
          exact ⟨by simpa using (hall n hn).1, by simpa using (hall n hn).2⟩

/-- Claim C4: whenever niftilist_mask_to_array succeeds, the returned
matrix has one row per listed file, each row is the file's voxel data at
the mask indices and has length equal to the mask's true-voxel count,
and every file passed the per-file shape-compatibility check against
the mask.  The mask indices and mask shape are returned alongside. -/
theorem C4_niftilist_matrix_shape :
    ∀ (vols : List NiftiImage) (maskimg : NiftiImage) (out : List (List Int))
      (idxs : List Nat) (sh : List Nat),
      niftilist_mask_to_array (vols.map (ImgRef.obj true)) (ImgRef.obj true maskimg) =
        Except.ok (out, idxs, sh) →
      out.length = vols.length ∧
      idxs = whereTrue (toBoolImage maskimg).data ∧
      sh = maskimg.shape ∧
      ∀ (i : Nat) (h : i < vols.length),
        out.get? i = some (maskedRow (vols.get ⟨i, h⟩).data idxs) ∧
        (maskedRow (vols.get ⟨i, h⟩).data idxs).length =
          count_nonzero (toBoolImage maskimg).data ∧
        (vols.get ⟨i, h⟩).shape = maskimg.shape := by
  intro vols maskimg out idxs sh h
  have hcm : check_img (ImgRef.obj true maskimg) = Except.ok maskimg := rfl
  match vols with
  | [] => simp [niftilist_mask_to_array] at h
  | v0 :: rest =>
    have hcv : check_img (ImgRef.obj true v0) = Except.ok v0 := rfl
    simp only [List.map_cons, niftilist_mask_to_array, List.head?, hcv] at h
    rcases hlm : load_mask (ImgRef.obj true maskimg) true with e | m
    · rw [hlm] at h; cases h
    · rw [hlm] at h
      have hmval : m = toBoolImage maskimg := load_mask_ok_eq _ _ _ _ hcm hlm
      subst hmval
      replace h :
          (match fillRows (ImgRef.obj true maskimg) (whereTrue (toBoolImage maskimg).data)
              (ImgRef.obj true v0 :: List.map (ImgRef.obj true) rest) with
            | Except.error e =>
              (Except.error e : Except PyExc (List (List Int) × List Nat × List Nat))
            | Except.ok outmat =>
              Except.ok (outmat, whereTrue (toBoolImage maskimg).data,
                (toBoolImage maskimg).shape)) = Except.ok (out, idxs, sh) := h
      rcases hfill : fillRows (ImgRef.obj true maskimg) (whereTrue (toBoolImage maskimg).data)
          (ImgRef.obj true v0 :: List.map (ImgRef.obj true) rest) with e | rows
      · rw [hfill] at h
        cases h
      · rw [hfill] at h
        obtain ⟨hout, hidx, hsh⟩ : out = rows ∧
            idxs = whereTrue (toBoolImage maskimg).data ∧ sh = (toBoolImage maskimg).shape := by
          cases h; exact ⟨rfl, rfl, rfl⟩
        subst hout hidx hsh
        obtain ⟨hlen, hall⟩ := fillRows_ok _ maskimg _ hcm (v0 :: rest) _ hfill
        refine ⟨hlen, rfl, rfl, ?_⟩
        intro i hi
        refine ⟨(hall i hi).1, ?_, (hall i hi).2⟩
        unfold maskedRow whereTrue
        rw [List.length_map, length_whereTrueAux]

/-- Witness for C4 at a concrete file list and mask. -/
theorem C4_niftilist_matrix_shape_witness :
    ([[7]] : List (List Int)).length = ([⟨[2], [5, 7]⟩] : List NiftiImage).length ∧
    ([1] : List Nat) = whereTrue (toBoolImage ⟨[2], [0, 1]⟩).data ∧
    ([2] : List Nat) = (⟨[2], [0, 1]⟩ : NiftiImage).shape ∧
    ∀ (i : Nat) (h : i < ([⟨[2], [5, 7]⟩] : List NiftiImage).length),
      ([[7]] : List (List Int)).get? i =
        some (maskedRow (([⟨[2], [5, 7]⟩] : List NiftiImage).get ⟨i, h⟩).data [1]) ∧
      (maskedRow (([⟨[2], [5, 7]⟩] : List NiftiImage).get ⟨i, h⟩).data [1]).length =
        count_nonzero (toBoolImage ⟨[2], [0, 1]⟩).data ∧
      (([⟨[2], [5, 7]⟩] : List NiftiImage).get ⟨i, h⟩).shape = (⟨[2], [0, 1]⟩ : NiftiImage).shape :=
  C4_niftilist_matrix_shape [⟨[2], [5, 7]⟩] ⟨[2], [0, 1]⟩ [[7]] [1] [2] (by decide)

lemma pyGet_not_mem_keys (d : Dict) (k : String) (h : k ∉ dictKeys d) :
    pyGet d k = PyVal.none := by
  induction d with
  | nil => rfl
  | cons kv rest ih =>
    have hk : ¬ (kv.1 == k) = true := by
      intro hc
      exact h (by simp [dictKeys, eq_of_beq hc])
    have hm : k ∉ dictKeys rest := fun hc => h (by simp [dictKeys] at hc ⊢; right; exact hc)
    simp only [pyGet, List.find?_cons, hk]
    simpa [pyGet] using ih hm

lemma pyGet_mapKeys (ks : List String) (f : String → PyVal) (k : String) :
    pyGet (ks.map (fun x => (x, f x))) k = if k ∈ ks then f k else PyVal.none := by
  induction ks with
  | nil => simp [pyGet]
  | cons x rest ih =>
    by_cases hx : (x == k) = true
    · have : x = k := eq_of_beq hx
      subst this
      simp [pyGet, List.find?_cons, hx]
    · have hne : ¬ (k = x) := fun hc => hx (by simp [hc])
      simp only [List.map_cons, pyGet, List.find?_cons, hx]
      rw [show (match List.find? (fun kv => kv.1 == k) (rest.map fun x => (x, f x)) with
          | some kv => kv.2
          | Option.none => PyVal.none) = pyGet (rest.map fun x => (x, f x)) k from rfl, ih]
      simp [List.mem_cons, hne]

lemma pyGet_merge (d1 d2 : Dict) (k : String) :
    pyGet (merge d1 d2) k = pyOr (pyGet d1 k) (pyGet d2 k) := by
  unfold merge
  rw [pyGet_mapKeys]
  by_cases hm : k ∈ (dictKeys d2 ++ dictKeys d1).dedup
  · rw [if_pos hm]
  · rw [if_neg hm]
    rw [List.mem_dedup, List.mem_append] at hm
    push_neg at hm
    rw [pyGet_not_mem_keys d1 k hm.2, pyGet_not_mem_keys d2 k hm.1]
    rfl

/-- Claim C3: for every key of the settings rcfile returns, a truthy
argument value wins; otherwise a truthy host-section value; otherwise a
truthy generic-section value; otherwise the environment value.  A falsy
higher-precedence value always falls through. -/
theorem C3_rcfile_merge_precedence :
    ∀ (args host_items cfg_items environ : Dict) (sd : Bool) (k : String) (c : Dict),
      (rcfile args host_items cfg_items environ sd).2 = Except.ok c →
      pyGet c k =
        (let argsF := if sd then stripArgs args else args
         if pyTruthy (pyGet argsF k) = true then pyGet argsF k
         else if pyTruthy (pyGet host_items k) = true then pyGet host_items k
         else if pyTruthy (pyGet cfg_items k) = true then pyGet cfg_items k
         else pyGet environ k) := by
  intro args host_items cfg_items environ sd k c h
  simp only [rcfile] at h
  set argsF := if sd then stripArgs args else args with hargsF
  set merged := merge (merge argsF (get_config host_items cfg_items)) environ with hmerged
  by_cases he : merged.isEmpty
  · rw [if_pos he] at h; cases h
  · rw [if_neg he] at h
    rw [Except.ok.injEq] at h
    subst h
    rw [hmerged, pyGet_merge, pyGet_merge]
    unfold get_config
    rw [pyGet_merge]
    simp only [← hargsF]
    cases hA : pyTruthy (pyGet argsF k) <;>
      cases hH : pyTruthy (pyGet host_items k) <;>
        cases hG : pyTruthy (pyGet cfg_items k) <;>
          simp [pyOr, hA, hH, hG]

/-- Witness for C3 at concrete dictionaries: a falsy argument value
falls through to the host section value. -/
theorem C3_rcfile_merge_precedence_witness :
    pyGet [("k", PyVal.str "h")] "k" =
      (let argsF := if true then stripArgs [("k", PyVal.str "")] else [("k", PyVal.str "")]
       if pyTruthy (pyGet argsF "k") = true then pyGet argsF "k"
       else if pyTruthy (pyGet [("k", PyVal.str "h")] "k") = true then
         pyGet [("k", PyVal.str "h")] "k"
       else if pyTruthy (pyGet [("k", PyVal.str "g")] "k") = true then
         pyGet [("k", PyVal.str "g")] "k"
       else pyGet [] "k") := by
  have h := C3_rcfile_merge_precedence [("k", PyVal.str "")] [("k", PyVal.str "h")]
    [("k", PyVal.str "g")] [] true "k"
    (merge (merge (stripArgs [("k", PyVal.str "")])
      (get_config [("k", PyVal.str "h")] [("k", PyVal.str "g")])) []) (by decide)
  rw [← h]
  decide

/-- Counterexample to claim C7: get_environment does not remove only the
leading prefix.  With application name app, the variable APP_XAPP_Y is
keyed xy (every occurrence of APP_ removed) rather than xapp_y (leading
prefix removed, remainder lower-cased). -/
theorem C7_counterexample_not_only_leading :
    get_environment "app" [("APP_XAPP_Y", "1")] = [("xy", "1")] ∧
    (get_environment "app" [("APP_XAPP_Y", "1")]).map Prod.fst = ["xy"] ∧
    ("xy" : String) ≠ "xapp_y" := by
  exact ⟨by decide, by decide, by decide⟩

/-- Claim C7 as amended: the mapping built by get_environment contains
exactly the environment variables whose names start with the upper-cased
application name followed by an underscore, each keyed by its name with
every occurrence of that pattern removed and the result lower-cased,
mapped to its unmodified value. -/
theorem C7_get_environment_membership :
    ∀ (appname : String) (environ : List (String × String)) (k v : String),
      (k, v) ∈ get_environment appname environ ↔
        ∃ K, (K, v) ∈ environ ∧ startswith K (strUpper appname ++ "_") = true ∧
          k = strLower (str_replace_all K (strUpper appname ++ "_")) := by
  intro appname environ k v
  simp only [get_environment, List.mem_map, List.mem_filter]
  constructor
  · rintro ⟨⟨K, w⟩, ⟨hmem, hpfx⟩, hkv⟩
    have hk : strLower (str_replace_all K (strUpper appname ++ "_")) = k :=
      congrArg Prod.fst hkv
    have hv : w = v := congrArg Prod.snd hkv
    subst hv
    exact ⟨K, hmem, hpfx, hk.symm⟩
  · rintro ⟨K, hmem, hpfx, hk⟩
    exact ⟨(K, v), ⟨hmem, hpfx⟩, by simp [hk]⟩

lemma dictSet_ne_nil (d : Dict) (k : String) (v : PyVal) : dictSet d k v ≠ [] := by
  unfold dictSet
  split_ifs with h
  · intro hc
    rw [List.map_eq_nil_iff] at hc
    subst hc
    simp [List.find?] at h
  · simp

lemma foldl_stripStep_ne_nil : ∀ (ks : List String), ks ≠ [] → ∀ (d : Dict),
    ks.foldl stripStep d ≠ [] := by
  intro ks
  induction ks with
  | nil => intro h; exact absurd rfl h
  | cons k rest ih =>
    intro _ d
    rw [List.foldl_cons]
    cases rest with
    | nil =>
      rw [List.foldl_nil]
      exact dictSet_ne_nil _ _ _
    | cons a t =>
      exact ih (by simp) (stripStep d k)

lemma stripArgs_eq_nil_iff (args : Dict) : stripArgs args = [] ↔ args = [] := by
  constructor
  · intro h
    by_contra hne
    have hk : dictKeys args ≠ [] := by
      intro hc
      exact hne (by simpa [dictKeys, List.map_eq_nil_iff] using hc)
    exact foldl_stripStep_ne_nil (dictKeys args) hk args h
  · intro h
    subst h
    rfl

lemma merge_eq_nil_iff (d1 d2 : Dict) : merge d1 d2 = [] ↔ d1 = [] ∧ d2 = [] := by
  unfold merge
  rw [List.map_eq_nil_iff, List.dedup_eq_nil, List.append_eq_nil]
  unfold dictKeys
  rw [List.map_eq_nil_iff, List.map_eq_nil_iff]
  tauto

/-- Claim C8: rcfile raises IOError exactly when the merge of arguments,
config-file sections and environment is empty (all sources empty); when
the merged mapping is non-empty it is returned without error. -/
theorem C8_rcfile_empty_settings :
    ∀ (args host_items cfg_items environ : Dict) (sd : Bool),
      ((rcfile args host_items cfg_items environ sd).2 = Except.error PyExc.ioError ↔
        (args = [] ∧ host_items = [] ∧ cfg_items = [] ∧ environ = [])) ∧
      (merge (merge (if sd then stripArgs args else args) (get_config host_items cfg_items))
          environ ≠ [] →
        (rcfile args host_items cfg_items environ sd).2 =
          Except.ok (merge (merge (if sd then stripArgs args else args)
            (get_config host_items cfg_items)) environ)) := by
  intro args host_items cfg_items environ sd
  have hempty :
      merge (merge (if sd then stripArgs args else args) (get_config host_items cfg_items))
          environ = [] ↔ (args = [] ∧ host_items = [] ∧ cfg_items = [] ∧ environ = []) := by
    rw [merge_eq_nil_iff, merge_eq_nil_iff]
    unfold get_config
    rw [merge_eq_nil_iff]
    constructor
    · rintro ⟨⟨ha, hh, hc⟩, he⟩
      refine ⟨?_, hh, hc, he⟩
      cases sd with
      | false => simpa using ha
      | true => simpa [stripArgs_eq_nil_iff] using ha
    · rintro ⟨ha, hh, hc, he⟩
      subst ha hh hc he
      refine ⟨⟨?_, rfl, rfl⟩, rfl⟩
      cases sd <;> simp [stripArgs, dictKeys]
  constructor
  · simp only [rcfile]
    constructor
    · intro h
      rw [← hempty]
      by_cases he : (merge (merge (if sd then stripArgs args else args)
          (get_config host_items cfg_items)) environ).isEmpty
      · rwa [← List.isEmpty_iff]
      · rw [if_neg he] at h
        cases h
    · intro h
      rw [← hempty] at h
      rw [if_pos (List.isEmpty_iff.mpr h)]
  · intro h
    simp only [rcfile]
    rw [if_neg (by rwa [List.isEmpty_iff])]

/-- Witness for C8 at concrete dictionaries. -/
theorem C8_rcfile_empty_settings_witness :
    (rcfile [] [] [] [("v", PyVal.str "1")] true).2 =
      Except.ok (merge (merge (if true then stripArgs [] else [])
        (get_config [] [])) [("v", PyVal.str "1")]) :=
  (C8_rcfile_empty_settings [] [] [] [("v", PyVal.str "1")] true).2 (by decide)

lemma dropWhile_dash_head (l : List Char) :
    startsWithDash ⟨l.dropWhile (fun c => c == '-')⟩ = false := by
  induction l with
  | nil => rfl
  | cons c rest ih =>
    rw [List.dropWhile_cons]
    by_cases hc : (c == '-') = true
    · rw [if_pos hc]
      exact ih
    · rw [if_neg hc]
      unfold startsWithDash
      simpa using hc

lemma startsWithDash_stripDashes (s : String) : startsWithDash (stripDashes s) = false := by
  unfold stripDashes
  exact dropWhile_dash_head s.data

lemma stripDashes_of_not_dash (s : String) (h : startsWithDash s = false) :
    stripDashes s = s := by
  unfold stripDashes
  unfold startsWithDash at h
  rcases s with ⟨l⟩
  cases l with
  | nil => rfl
  | cons c rest =>
    simp only at h
    simp [List.dropWhile, h]

lemma stripDashes_ne_self (k : String) (h : startsWithDash k = true) :
    stripDashes k ≠ k := by
  intro hc
  have := startsWithDash_stripDashes k
  rw [hc, h] at this
  cases this

lemma mem_dictKeys_dictSet (d : Dict) (k : String) (v : PyVal) (k2 : String) :
    k2 ∈ dictKeys (dictSet d k v) ↔ k2 ∈ dictKeys d ∨ k2 = k := by
  unfold dictSet
  split_ifs with h
  · have hkeys : dictKeys (d.map (fun kv => if kv.1 == k then (k, v) else kv)) = dictKeys d := by
      unfold dictKeys
      rw [List.map_map]
      apply List.map_congr_left
      intro kv _
      by_cases hkv : kv.1 = k
      · simp [hkv]
      · simp [hkv]
    rw [hkeys]
    constructor
    · exact Or.inl
    · rintro (h2 | h2)
      · exact h2
      · subst h2
        rw [List.find?_isSome] at h
        obtain ⟨kv, hkv, hbeq⟩ := h
        exact (eq_of_beq hbeq) ▸ List.mem_map.mpr ⟨kv, hkv, rfl⟩
  · unfold dictKeys
    rw [List.map_append]
    simp [dictKeys]

lemma mem_dictKeys_dictPop (d : Dict) (k : String) (k2 : String) :
    k2 ∈ dictKeys (dictPop d k) ↔ k2 ∈ dictKeys d ∧ k2 ≠ k := by
  unfold dictPop dictKeys
  simp only [List.mem_map, List.mem_filter, bne_iff_ne, ne_eq]
  constructor
  · rintro ⟨kv, ⟨hmem, hne⟩, rfl⟩
    exact ⟨⟨kv, hmem, rfl⟩, hne⟩
  · rintro ⟨⟨kv, hmem, rfl⟩, hne⟩
    exact ⟨kv, ⟨hmem, hne⟩, rfl⟩

lemma not_mem_keys_stripStep (d : Dict) (k2 k : String) (hk : startsWithDash k = true)
    (h : k ∉ dictKeys d) : k ∉ dictKeys (stripStep d k2) := by
  unfold stripStep
  rw [mem_dictKeys_dictSet, mem_dictKeys_dictPop]
  rintro (⟨h1, _⟩ | h1)
  · exact h h1
  · have := startsWithDash_stripDashes k2
    rw [← h1, hk] at this
    cases this

lemma foldl_stripStep_not_mem (ks : List String) :
    ∀ (d : Dict) (k : String), startsWithDash k = true → k ∉ dictKeys d →
      k ∉ dictKeys (ks.foldl stripStep d) := by
  induction ks with
  | nil => intro d k _ h; exact h
  | cons k2 rest ih =>
    intro d k hk h
    rw [List.foldl_cons]
    exact ih (stripStep d k2) k hk (not_mem_keys_stripStep d k2 k hk h)

lemma foldl_stripStep_mem (ks : List String) :
    ∀ (d : Dict) (s : String), startsWithDash s = false → s ∈ dictKeys d →
      s ∈ dictKeys (ks.foldl stripStep d) := by
  induction ks with
  | nil => intro d s _ h; exact h
  | cons k2 rest ih =>
    intro d s hs h
    rw [List.foldl_cons]
    apply ih (stripStep d k2) s hs
    unfold stripStep
    rw [mem_dictKeys_dictSet, mem_dictKeys_dictPop]
    by_cases hsk : s = k2
    · right
      rw [hsk] at hs ⊢
      exact (stripDashes_of_not_dash k2 hs).symm
    · exact Or.inl ⟨h, hsk⟩

lemma stripArgs_removes_dashed (args : Dict) (k : String)
    (hmem : k ∈ dictKeys args) (hk : startsWithDash k = true) :
    k ∉ dictKeys (stripArgs args) ∧ stripDashes k ∈ dictKeys (stripArgs args) := by
  obtain ⟨l1, l2, hsplit⟩ := List.append_of_mem hmem
  unfold stripArgs
  rw [hsplit, List.foldl_append, List.foldl_cons]
  set d1 := l1.foldl stripStep args with hd1
  have hgone : k ∉ dictKeys (stripStep d1 k) := by
    unfold stripStep
    rw [mem_dictKeys_dictSet, mem_dictKeys_dictPop]
    rintro (⟨_, hc⟩ | hc)
    · exact hc rfl
    · exact stripDashes_ne_self k hk hc.symm
  have hthere : stripDashes k ∈ dictKeys (stripStep d1 k) := by
    unfold stripStep
    rw [mem_dictKeys_dictSet]
    exact Or.inr rfl
  exact ⟨foldl_stripStep_not_mem l2 (stripStep d1 k) k hk hgone,
    foldl_stripStep_mem l2 (stripStep d1 k) (stripDashes k)
      (startsWithDash_stripDashes k) hthere⟩

/-- Claim C10: calling rcfile with strip_dashes=True mutates the
caller's args dictionary: a key with a leading dash is removed, its
stripped form is present afterwards, and the dictionary differs from
the one passed in. -/
theorem C10_rcfile_strip_dashes_mutates_args :
    ∀ (args host_items cfg_items environ : Dict) (k : String) (v : PyVal),
      (k, v) ∈ args → startsWithDash k = true →
      k ∉ dictKeys ((rcfile args host_items cfg_items environ true).1) ∧
      stripDashes k ∈ dictKeys ((rcfile args host_items cfg_items environ true).1) ∧
      (rcfile args host_items cfg_items environ true).1 ≠ args := by
  intro args host_items cfg_items environ k v hmem hk
  have hkeys : k ∈ dictKeys args := List.mem_map.mpr ⟨(k, v), hmem, rfl⟩
  have hres : (rcfile args host_items cfg_items environ true).1 = stripArgs args := rfl
  rw [hres]
  obtain ⟨hgone, hthere⟩ := stripArgs_removes_dashed args k hkeys hk
  refine ⟨hgone, hthere, ?_⟩
  intro hc
  rw [hc] at hgone
  exact hgone hkeys

/-- Witness for C10 at a concrete args dictionary. -/
theorem C10_rcfile_strip_dashes_mutates_args_witness :
    "-x" ∉ dictKeys ((rcfile [("-x", PyVal.str "1")] [] [] [] true).1) ∧
    stripDashes "-x" ∈ dictKeys ((rcfile [("-x", PyVal.str "1")] [] [] [] true).1) ∧
    (rcfile [("-x", PyVal.str "1")] [] [] [] true).1 ≠ [("-x", PyVal.str "1")] :=
  C10_rcfile_strip_dashes_mutates_args [("-x", PyVal.str "1")] [] [] [] "-x" (PyVal.str "1")
    (by decide) (by decide)
